import Mathlib

/-!
Verification of the OpenColorado heat-map analysis script
(`Analysis/OpenDataMap/Analysis/analysis.py`).

The script downloads shapefiles from a CKAN catalog, reprojects them,
rasterizes each dataset to an 8-bit image using an area-dependent burn
value for polygons, and merges the per-dataset rasters into a composite
heat map.  This file gives a shallow embedding of the numeric and
list-processing kernels of that script and proves (or refutes) the
specified properties about them.
-/

namespace Analysis

/-- Python `int(x)` applied to a real value: truncation toward zero. -/
noncomputable def pyint (x : ℝ) : ℤ := if 0 ≤ x then ⌊x⌋ else ⌈x⌉

/-- Module global `x_min` (bounding box in web mercator coordinates). -/
def x_min : ℝ := -12140532.1637

/-- Module global `x_max`. -/
def x_max : ℝ := -11359138.5791

/-- Module global `y_min`. -/
def y_min : ℝ := 4438050.84302

/-- Module global `y_max`. -/
def y_max : ℝ := 5012849.66619

/-- Module global `resolution` (pixel size in web mercator meters). -/
def resolution : ℝ := 80

/-- `max_polygon_size_ratio` in `compute_polygon_burn_value`: maximum polygon
size relative to the bounding area that still gets a burn weight (20%). -/
def max_polygon_size_ratio : ℝ := 0.2

/-- `decay_rate` in `compute_polygon_burn_value`. -/
def decay_rate : ℝ := 10

/-- The global `bounding_box_area` as computed (and cached) by
`compute_polygon_burn_value`:
`((x_max - x_min) * (y_max - y_min)) * max_polygon_size_ratio`. -/
noncomputable def bounding_box_area : ℝ :=
  ((x_max - x_min) * (y_max - y_min)) * max_polygon_size_ratio

open Classical in
/-- Body of `compute_polygon_burn_value`, with the threshold
(`bounding_box_area` in the script, a module global) made explicit as the
parameter `bba`.  `burn_value` starts at 255; if `area > 0 and
area < bounding_box_area` it becomes
`int((1 - (area/bounding_box_area)**(1/decay_rate)) * 255)`;
elif `area > bounding_box_area` it becomes 0; otherwise it stays 255. -/
noncomputable def compute_polygon_burn_value_at (area bba : ℝ) : ℤ :=
  if 0 < area ∧ area < bba then
    pyint ((1 - (area / bba) ^ ((1 : ℝ) / decay_rate)) * 255)
  else if bba < area then
    0
  else
    255

/-- `compute_polygon_burn_value(area)` from the script, using the script's
global `bounding_box_area` threshold. -/
noncomputable def compute_polygon_burn_value (area : ℝ) : ℤ :=
  compute_polygon_burn_value_at area bounding_box_area

lemma bounding_box_area_eq :
    bounding_box_area = 781393.5846 * 574798.82317 * 0.2 := by
  unfold bounding_box_area x_min x_max y_min y_max max_polygon_size_ratio
  norm_num

lemma bounding_box_area_pos : 0 < bounding_box_area := by
  rw [bounding_box_area_eq]; norm_num

lemma burn_at_zero_eq_255 : compute_polygon_burn_value 0 = 255 := by
  unfold compute_polygon_burn_value compute_polygon_burn_value_at
  rw [if_neg, if_neg]
  · exact not_lt.mpr bounding_box_area_pos.le
  · rintro ⟨h, -⟩; exact lt_irrefl 0 h

lemma burn_at_threshold_eq_255 :
    compute_polygon_burn_value bounding_box_area = 255 := by
  unfold compute_polygon_burn_value compute_polygon_burn_value_at
  rw [if_neg, if_neg]
  · exact lt_irrefl bounding_box_area
  · rintro ⟨-, h⟩; exact lt_irrefl _ h

lemma burn_above_threshold {a : ℝ} (h : bounding_box_area < a) :
    compute_polygon_burn_value a = 0 := by
  unfold compute_polygon_burn_value compute_polygon_burn_value_at
  rw [if_neg, if_pos h]
  rintro ⟨-, h'⟩; exact absurd (h.trans h') (lt_irrefl _)

/-- C1: the claim states `burn(a) = 0` for every `a ≥ threshold` and
`burn(0) = 0`.  Both parts fail on the code: at `area = 0` neither branch
fires (`area > 0` is false and `area > bounding_box_area` is false), and at
`area = bounding_box_area` exactly, neither strict comparison fires, so the
initial default 255 is returned in both cases. -/
theorem c1_counterexample :
    compute_polygon_burn_value 0 = 255 ∧
      compute_polygon_burn_value bounding_box_area = 255 := by
  exact ⟨burn_at_zero_eq_255, burn_at_threshold_eq_255⟩

/-- C1 (amended): the burn value is 0 only for areas strictly greater than
the threshold; at exactly the threshold and at zero (or negative) area the
function returns the initial default 255. -/
theorem c1_amended (a : ℝ) (h : bounding_box_area < a) :
    compute_polygon_burn_value a = 0 ∧
      compute_polygon_burn_value 0 = 255 ∧
      compute_polygon_burn_value bounding_box_area = 255 := by
  exact ⟨burn_above_threshold h, burn_at_zero_eq_255, burn_at_threshold_eq_255⟩

/-- Witness for C1 (amended) at `a = bounding_box_area + 1`. -/
theorem c1_amended_witness :
    compute_polygon_burn_value (bounding_box_area + 1) = 0 ∧
      compute_polygon_burn_value 0 = 255 ∧
      compute_polygon_burn_value bounding_box_area = 255 :=
  c1_amended (bounding_box_area + 1) (by linarith [bounding_box_area_pos])

lemma burn_formula {a t : ℝ} (h0 : 0 < a) (ht : a < t) :
    compute_polygon_burn_value_at a t =
      ⌊(1 - (a / t) ^ ((1 : ℝ) / 10)) * 255⌋ := by
  have htpos : 0 < t := h0.trans ht
  have hratio0 : (0 : ℝ) ≤ a / t := by positivity
  have hratio1 : a / t ≤ 1 := (div_le_one htpos).mpr ht.le
  have hexp : (0 : ℝ) ≤ (1 : ℝ) / decay_rate := by unfold decay_rate; norm_num
  have hle1 : (a / t) ^ ((1 : ℝ) / decay_rate) ≤ 1 :=
    Real.rpow_le_one hratio0 hratio1 hexp
  have hnonneg : 0 ≤ (1 - (a / t) ^ ((1 : ℝ) / decay_rate)) * 255 := by nlinarith
  unfold compute_polygon_burn_value_at pyint
  rw [if_pos ⟨h0, ht⟩, if_pos hnonneg]
  norm_num [decay_rate]

lemma quarter_rpow_pow_ten : (((1 : ℝ) / 4) ^ ((1 : ℝ) / 10)) ^ (10 : ℕ) = 1 / 4 := by
  rw [show ((1 : ℝ) / 10) = (((10 : ℕ) : ℝ))⁻¹ by norm_num]
  exact Real.rpow_inv_natCast_pow (by norm_num) (by norm_num)

lemma quarter_rpow_le : ((1 : ℝ) / 4) ^ ((1 : ℝ) / 10) ≤ 222 / 255 := by
  have hc : (0 : ℝ) ≤ ((1 : ℝ) / 4) ^ ((1 : ℝ) / 10) :=
    Real.rpow_nonneg (by norm_num) _
  have h2 : (((1 : ℝ) / 4) ^ ((1 : ℝ) / 10)) ^ (10 : ℕ) ≤ ((222 : ℝ) / 255) ^ (10 : ℕ) := by
    rw [quarter_rpow_pow_ten]; norm_num
  exact (pow_le_pow_iff_left₀ hc (by norm_num) (by norm_num)).mp h2

lemma quarter_rpow_gt : (221 : ℝ) / 255 < ((1 : ℝ) / 4) ^ ((1 : ℝ) / 10) := by
  have hc : (0 : ℝ) ≤ ((1 : ℝ) / 4) ^ ((1 : ℝ) / 10) :=
    Real.rpow_nonneg (by norm_num) _
  have h2 : ((221 : ℝ) / 255) ^ (10 : ℕ) < (((1 : ℝ) / 4) ^ ((1 : ℝ) / 10)) ^ (10 : ℕ) := by
    rw [quarter_rpow_pow_ten]; norm_num
  exact (pow_lt_pow_iff_left₀ (by norm_num) hc (by norm_num)).mp h2

lemma burn_instance_33 : compute_polygon_burn_value_at 50000 200000 = 33 := by
  rw [burn_formula (by norm_num) (by norm_num),
    show (50000 : ℝ) / 200000 = 1 / 4 by norm_num, Int.floor_eq_iff]
  have h1 := quarter_rpow_le
  have h2 := quarter_rpow_gt
  constructor
  · push_cast; nlinarith
  · push_cast; nlinarith

/-- C2: for `0 < a < t` the burn value is
`⌊(1 − (a/t)^(1/10))·255⌋` (the decay-rate constant is 10), and in
particular for `a = 50000`, `t = 200000` the burn value is 33. -/
theorem c2_burn_formula :
    (∀ a t : ℝ, 0 < a → a < t →
        compute_polygon_burn_value_at a t =
          ⌊(1 - (a / t) ^ ((1 : ℝ) / 10)) * 255⌋) ∧
      compute_polygon_burn_value_at 50000 200000 = 33 :=
  ⟨fun _ _ h0 ht => burn_formula h0 ht, burn_instance_33⟩

/-- Witness for C2 at `a = 50000`, `t = 200000`. -/
theorem c2_burn_formula_witness :
    compute_polygon_burn_value_at 50000 200000 =
        ⌊(1 - ((50000 : ℝ) / 200000) ^ ((1 : ℝ) / 10)) * 255⌋ ∧
      compute_polygon_burn_value_at 50000 200000 = 33 :=
  ⟨c2_burn_formula.1 50000 200000 (by norm_num) (by norm_num), c2_burn_formula.2⟩

lemma burn_mono {a b t : ℝ} (h0 : 0 < a) (hab : a ≤ b) (hbt : b < t) :
    compute_polygon_burn_value_at b t ≤ compute_polygon_burn_value_at a t := by
  have h0b : 0 < b := h0.trans_le hab
  have hat : a < t := lt_of_le_of_lt hab hbt
  have htpos : 0 < t := h0b.trans hbt
  rw [burn_formula h0 hat, burn_formula h0b hbt]
  apply Int.floor_le_floor
  have h1 : (a / t) ^ ((1 : ℝ) / 10) ≤ (b / t) ^ ((1 : ℝ) / 10) :=
    Real.rpow_le_rpow (by positivity) (by gcongr) (by norm_num)
  nlinarith

lemma burn_range {a t : ℝ} (h0 : 0 < a) (ht : a < t) :
    0 ≤ compute_polygon_burn_value_at a t ∧
      compute_polygon_burn_value_at a t ≤ 255 := by
  have htpos : 0 < t := h0.trans ht
  rw [burn_formula h0 ht]
  have hr0 : (0 : ℝ) ≤ a / t := by positivity
  have hr1 : a / t ≤ 1 := (div_le_one htpos).mpr ht.le
  have hp0 : 0 ≤ (a / t) ^ ((1 : ℝ) / 10) := Real.rpow_nonneg hr0 _
  have hp1 : (a / t) ^ ((1 : ℝ) / 10) ≤ 1 := Real.rpow_le_one hr0 hr1 (by norm_num)
  constructor
  · apply Int.le_floor.mpr; push_cast; nlinarith
  · have h255 : (1 - (a / t) ^ ((1 : ℝ) / 10)) * 255 ≤ ((255 : ℤ) : ℝ) := by
      push_cast; nlinarith
    calc ⌊(1 - (a / t) ^ ((1 : ℝ) / 10)) * 255⌋ ≤ ⌊((255 : ℤ) : ℝ)⌋ :=
          Int.floor_le_floor h255
      _ = 255 := Int.floor_intCast 255

/-- C3: on `0 < a ≤ b < bounding_box_area` (the script's threshold), the
burn value is monotonically non-increasing in the area, and lies in
`[0, 255]`. -/
theorem c3_burn_monotone (a b : ℝ) (h0 : 0 < a) (hab : a ≤ b)
    (hbt : b < bounding_box_area) :
    compute_polygon_burn_value b ≤ compute_polygon_burn_value a ∧
      0 ≤ compute_polygon_burn_value a ∧ compute_polygon_burn_value a ≤ 255 := by
  have hat : a < bounding_box_area := lt_of_le_of_lt hab hbt
  exact ⟨burn_mono h0 hab hbt, (burn_range h0 hat).1, (burn_range h0 hat).2⟩

/-- Witness for C3 at `a = 1`, `b = 2`. -/
theorem c3_burn_monotone_witness :
    compute_polygon_burn_value 2 ≤ compute_polygon_burn_value 1 ∧
      0 ≤ compute_polygon_burn_value 1 ∧ compute_polygon_burn_value 1 ≤ 255 :=
  c3_burn_monotone 1 2 (by norm_num) (by norm_num)
    (by rw [bounding_box_area_eq]; norm_num)

/-- Elementwise addition of two rasters
(`base_image_array + current_image_array` on `uint16` numpy arrays):
pixelwise addition reduced modulo 2^16. -/
def addRaster (a b : List ℕ) : List ℕ :=
  List.zipWith (fun x y => (x + y) % 65536) a b

/-- The accumulation loop of `generate_composite_image`: the first
`map.png` found becomes `base_image_array`, every further raster is added
with `addRaster`.  When no raster exists at all, `base_image_array` stays
`None` (the subsequent `.max()` call raises): modelled as `none`. -/
def accumulate : List (List ℕ) → Option (List ℕ)
  | [] => none
  | r :: rs => some (rs.foldl addRaster r)

/-- `base_image_array.max()`: the maximum pixel value of a raster. -/
def rasterMax (a : List ℕ) : ℕ := a.foldr max 0

/-- The in-place rescale `base_image_array /= divisor` with
`divisor = pixel_max / 255.0`, stored back into the `uint16` array: each
pixel becomes the truncation of `p·255/m` (truncation of a nonnegative
value is the floor, i.e. ℕ division), reduced modulo 2^16. -/
def rescale (m : ℕ) (a : List ℕ) : List ℕ :=
  a.map fun p => p * 255 / m % 65536

/-- `astype('uint8')`: reduction modulo 2^8. -/
def toUint8 (a : List ℕ) : List ℕ := a.map (· % 256)

/-- `generate_composite_image` on the list of per-dataset rasters.
`none` marks the inputs on which the script has no well-defined result:
with no raster, `base_image_array` is `None` and `.max()` raises; with
`pixel_max = 0`, the divisor is `0.0` and every pixel undergoes `0/0.0`
(NaN in numpy), whose cast back to an integer array is undefined. -/
def generate_composite_image (rasters : List (List ℕ)) : Option (List ℕ) :=
  match accumulate rasters with
  | none => none
  | some acc =>
    let m := rasterMax acc
    if m = 0 then none
    else some (toUint8 (rescale m acc))

/-- Whether the rescale step of `generate_composite_image` divides by
`0.0`: the script computes `divisor = pixel_max / float(255)` and divides
unconditionally, so this happens exactly when the accumulated maximum is
zero. -/
def composite_divides_by_zero (rasters : List (List ℕ)) : Bool :=
  match accumulate rasters with
  | none => false
  | some acc => rasterMax acc == 0

lemma le_rasterMax {a : List ℕ} {p : ℕ} (hp : p ∈ a) : p ≤ rasterMax a := by
  induction a with
  | nil => cases hp
  | cons x xs ih =>
    rcases List.mem_cons.mp hp with h | h
    · subst h; exact le_max_left _ _
    · exact le_trans (ih h) (le_max_right _ _)

lemma rescale_pixel_le {m p : ℕ} (hm : 0 < m) (hp : p ≤ m) :
    p * 255 / m ≤ 255 := by
  calc p * 255 / m ≤ m * 255 / m := Nat.div_le_div_right (Nat.mul_le_mul_right _ hp)
    _ = 255 := Nat.mul_div_cancel_left 255 hm

lemma composite_eq_of_max_pos {rasters : List (List ℕ)} {acc : List ℕ}
    (hacc : accumulate rasters = some acc) (hm : 0 < rasterMax acc) :
    generate_composite_image rasters =
      some (acc.map fun p => p * 255 / rasterMax acc) := by
  unfold generate_composite_image
  rw [hacc]
  simp only [Nat.pos_iff_ne_zero.mp hm, if_neg, ite_false]
  refine congrArg some ?_
  unfold toUint8 rescale
  rw [List.map_map]
  refine List.map_congr_left fun p hp => ?_
  have h1 : p * 255 / rasterMax acc ≤ 255 := rescale_pixel_le hm (le_rasterMax hp)
  show p * 255 / rasterMax acc % 65536 % 256 = p * 255 / rasterMax acc
  rw [Nat.mod_eq_of_lt (lt_of_le_of_lt h1 (by norm_num)),
    Nat.mod_eq_of_lt (lt_of_le_of_lt h1 (by norm_num))]

/-- C4: with a nonempty raster list whose elementwise 16-bit sum `acc` has
a positive maximum, every output pixel is `⌊p / (max/255)⌋ = p·255/max`,
and any pixel attaining the maximum maps to exactly 255. -/
theorem c4_composite_scaling (rasters : List (List ℕ)) (acc : List ℕ)
    (hacc : accumulate rasters = some acc) (hm : 0 < rasterMax acc) :
    generate_composite_image rasters =
        some (acc.map fun p => p * 255 / rasterMax acc) ∧
      ∀ p ∈ acc, p = rasterMax acc → p * 255 / rasterMax acc = 255 := by
  refine ⟨composite_eq_of_max_pos hacc hm, fun p _ hpm => ?_⟩
  rw [hpm]
  exact Nat.mul_div_cancel_left 255 hm

/-- Witness for C4: raster A with single lit pixel 200, raster B with the
same lit pixel 100; the summed pixel 300 maps to 255 and the rest to 0. -/
theorem c4_composite_scaling_witness :
    generate_composite_image [[200, 0], [100, 0]] = some [255, 0] :=
  ((c4_composite_scaling [[200, 0], [100, 0]] [300, 0] (by decide)
    (by decide)).1).trans (by decide)

lemma addRaster_right_comm (b a₁ a₂ : List ℕ) :
    addRaster (addRaster b a₁) a₂ = addRaster (addRaster b a₂) a₁ := by
  induction b generalizing a₁ a₂ with
  | nil => simp [addRaster]
  | cons x xs ih =>
    cases a₁ with
    | nil => simp [addRaster]
    | cons y ys =>
      cases a₂ with
      | nil => simp [addRaster]
      | cons z zs =>
        simp only [addRaster, List.zipWith_cons_cons]
        refine congrArg₂ List.cons ?_ (ih ys zs)
        omega

instance : RightCommutative addRaster := ⟨addRaster_right_comm⟩

lemma addRaster_replicate_zero {n : ℕ} {r : List ℕ} (hlen : r.length = n)
    (hp : ∀ p ∈ r, p < 65536) :
    addRaster (List.replicate n 0) r = r := by
  subst hlen
  induction r with
  | nil => simp [addRaster]
  | cons x xs ih =>
    have hx : x < 65536 := hp x (List.mem_cons_self x xs)
    simp only [List.length_cons, List.replicate_succ, addRaster,
      List.zipWith_cons_cons]
    refine congrArg₂ List.cons (by omega) ?_
    exact ih fun p hmem => hp p (List.mem_cons_of_mem _ hmem)

lemma accumulate_eq_foldl_zero {n : ℕ} {l : List (List ℕ)} (hne : l ≠ [])
    (hlen : ∀ r ∈ l, r.length = n) (hp : ∀ r ∈ l, ∀ p ∈ r, p < 65536) :
    accumulate l = some (l.foldl addRaster (List.replicate n 0)) := by
  cases l with
  | nil => exact absurd rfl hne
  | cons r rs =>
    unfold accumulate
    rw [List.foldl_cons,
      addRaster_replicate_zero (hlen r (List.mem_cons_self r rs))
        (hp r (List.mem_cons_self r rs))]

/-- C5: the composite image is invariant under any permutation of the
per-dataset rasters (all of the same dimension, 8-bit pixel values). -/
theorem c5_composite_perm_invariant (l₁ l₂ : List (List ℕ)) (n : ℕ)
    (hperm : l₁.Perm l₂) (hlen : ∀ r ∈ l₁, r.length = n)
    (h8 : ∀ r ∈ l₁, ∀ p ∈ r, p < 256) :
    generate_composite_image l₁ = generate_composite_image l₂ := by
  rcases eq_or_ne l₁ [] with h | hne₁
  · subst h
    rw [hperm.symm.eq_nil]
  · have hne₂ : l₂ ≠ [] := fun h => hne₁ (List.Perm.eq_nil (h ▸ hperm))
    have hp₁ : ∀ r ∈ l₁, ∀ p ∈ r, p < 65536 :=
      fun r hr p hpmem => lt_trans (h8 r hr p hpmem) (by norm_num)
    have hlen₂ : ∀ r ∈ l₂, r.length = n :=
      fun r hr => hlen r (hperm.mem_iff.mpr hr)
    have hp₂ : ∀ r ∈ l₂, ∀ p ∈ r, p < 65536 :=
      fun r hr => hp₁ r (hperm.mem_iff.mpr hr)
    have key : accumulate l₁ = accumulate l₂ := by
      rw [accumulate_eq_foldl_zero hne₁ hlen hp₁,
        accumulate_eq_foldl_zero hne₂ hlen₂ hp₂]
      exact congrArg some (hperm.foldl_eq (List.replicate n 0))
    unfold generate_composite_image
    rw [key]

/-- Witness for C5: swapping the two rasters of the C4 example. -/
theorem c5_composite_perm_invariant_witness :
    generate_composite_image [[200, 0], [100, 0]] =
      generate_composite_image [[100, 0], [200, 0]] :=
  c5_composite_perm_invariant [[200, 0], [100, 0]] [[100, 0], [200, 0]] 2
    (by decide) (by decide) (by decide)

/-- C6: the claim states that a zero accumulated maximum makes the script
skip rescaling and emit the all-zero composite with no division by zero.
On the code there is no such guard: at the all-zero input `[[0, 0]]`, the
divisor `0.0` is computed and used, and no well-defined all-zero 8-bit
composite results. -/
theorem c6_counterexample :
    composite_divides_by_zero [[0, 0]] = true ∧
      generate_composite_image [[0, 0]] ≠ some [0, 0] := by decide

/-- C6 (amended): when the accumulated maximum is 0 the script does not
skip rescaling: it computes `divisor = 0.0` and performs the division
anyway (`0/0.0` for every pixel, NaN in numpy), so no well-defined 8-bit
composite is produced (modelled as `none`). -/
theorem c6_amended (rasters : List (List ℕ)) (acc : List ℕ)
    (hacc : accumulate rasters = some acc) (hm : rasterMax acc = 0) :
    composite_divides_by_zero rasters = true ∧
      generate_composite_image rasters = none := by
  unfold composite_divides_by_zero generate_composite_image
  rw [hacc]
  simp [hm]

/-- Witness for C6 (amended) at the single all-zero raster `[[0, 0]]`. -/
theorem c6_amended_witness :
    composite_divides_by_zero [[0, 0]] = true ∧
      generate_composite_image [[0, 0]] = none :=
  c6_amended [[0, 0]] [0, 0] (by decide) (by decide)

/-- C10: when the 16-bit accumulation does not overflow (each accumulated
pixel is at most 65535 — automatic in the modular model) and the maximum
is positive, every rescaled pixel is at most 255 (it is a ℕ, so at least
0), hence the `astype('uint8')` cast is value-preserving: it never wraps
modulo 256. -/
theorem c10_cast_preserving (rasters : List (List ℕ)) (acc : List ℕ)
    (hacc : accumulate rasters = some acc) (hov : ∀ p ∈ acc, p ≤ 65535)
    (hm : 0 < rasterMax acc) :
    (∀ q ∈ rescale (rasterMax acc) acc, q ≤ 255) ∧
      toUint8 (rescale (rasterMax acc) acc) = rescale (rasterMax acc) acc := by
  have hb : ∀ q ∈ rescale (rasterMax acc) acc, q ≤ 255 := by
    intro q hq
    rcases List.mem_map.mp hq with ⟨p, hp, rfl⟩
    have h1 : p * 255 / rasterMax acc ≤ 255 :=
      rescale_pixel_le hm (le_rasterMax hp)
    show p * 255 / rasterMax acc % 65536 ≤ 255
    exact le_trans (Nat.mod_le _ _) h1
  refine ⟨hb, ?_⟩
  unfold toUint8 rescale
  rw [List.map_map]
  refine List.map_congr_left fun p hp => ?_
  have h1 : p * 255 / rasterMax acc ≤ 255 :=
    rescale_pixel_le hm (le_rasterMax hp)
  show p * 255 / rasterMax acc % 65536 % 256 = p * 255 / rasterMax acc % 65536
  rw [Nat.mod_eq_of_lt (lt_of_le_of_lt h1 (by norm_num)),
    Nat.mod_eq_of_lt (lt_of_le_of_lt h1 (by norm_num))]

/-- Witness for C10 at the C4 example rasters. -/
theorem c10_cast_preserving_witness :
    (∀ q ∈ rescale (rasterMax [300, 0]) [300, 0], q ≤ 255) ∧
      toUint8 (rescale (rasterMax [300, 0]) [300, 0]) =
        rescale (rasterMax [300, 0]) [300, 0] :=
  c10_cast_preserving [[200, 0], [100, 0]] [300, 0] (by decide) (by decide)
    (by decide)

/-- Grid dimension computation in `rasterize_shapefile`:
`int((hi - lo) / res)`, with the bounding box and resolution made
explicit (the script reads them from module globals). -/
noncomputable def grid_dim (lo hi res : ℝ) : ℤ := pyint ((hi - lo) / res)

/-- The script's `x_res = int((x_max - x_min) / resolution)`. -/
noncomputable def x_res : ℤ := grid_dim x_min x_max resolution

/-- The script's `y_res = int((y_max - y_min) / resolution)`. -/
noncomputable def y_res : ℤ := grid_dim y_min y_max resolution

/-- The raster dimensions `rasterize_shapefile` passes to
`gdal.GetDriverByName('GTiff').Create` for a dataset: computed only from
the module globals, hence independent of the package. -/
noncomputable def raster_dims (_package_name : String) : ℤ × ℤ := (x_res, y_res)

lemma x_res_eq : x_res = 9767 := by
  unfold x_res grid_dim pyint x_max x_min resolution
  rw [if_pos (by norm_num), Int.floor_eq_iff]
  norm_num

lemma x_ceil_eq : ⌈(x_max - x_min) / resolution⌉ = 9768 := by
  unfold x_max x_min resolution
  rw [Int.ceil_eq_iff]
  norm_num

/-- C7: the claim states the grid dimensions are
`ceil((max − min)/resolution)`.  The script uses Python `int()`, which
truncates toward zero: at the script's own bounding box and resolution,
`(x_max - x_min)/resolution ≈ 9767.42`, so the script computes 9767 where
the claim demands 9768. -/
theorem c7_counterexample :
    x_res = 9767 ∧ ⌈(x_max - x_min) / resolution⌉ = 9768 :=
  ⟨x_res_eq, x_ceil_eq⟩

/-- C7 (amended): for every positive resolution and bounding box with
`lo < hi`, the grid dimension is `⌊(hi − lo)/resolution⌋` (truncation of
a positive quantity), and the dimensions are identical for every
per-dataset raster, since they are computed only from the module
globals. -/
theorem c7_amended (lo hi res : ℝ) (hlh : lo < hi) (hres : 0 < res) :
    grid_dim lo hi res = ⌊(hi - lo) / res⌋ ∧
      ∀ p q : String, raster_dims p = raster_dims q := by
  refine ⟨?_, fun p q => rfl⟩
  unfold grid_dim pyint
  rw [if_pos (div_nonneg (by linarith) hres.le)]

/-- Witness for C7 (amended) at `lo = 0`, `hi = 1`, `res = 1`. -/
theorem c7_amended_witness :
    grid_dim 0 1 1 = ⌊((1 : ℝ) - 0) / 1⌋ ∧
      ∀ p q : String, raster_dims p = raster_dims q :=
  c7_amended 0 1 1 (by norm_num) (by norm_num)

/-- The feature loop of `reproject_shapefile`, parametric in the geometry
type `G` and the coordinate transformation `T` (the
`osr.CoordinateTransformation`).  An input feature carries `some`
geometry when `GetGeometryRef()` succeeds and `none` when the geometry is
unreadable.  Returns the features written to the destination layer
together with the success flag: on an unreadable geometry the loop sets
`projected_shapefile = None` (flag `false`) and breaks, writing nothing
further. -/
def reproject_features {G : Type} (T : G → G) : List (Option G) → List G × Bool
  | [] => ([], true)
  | some g :: rest =>
    (T g :: (reproject_features T rest).1, (reproject_features T rest).2)
  | none :: _ => ([], false)

/-- `process_package_resource` guards the call to `rasterize_shapefile`
with `if (shapefile_projected != None)` — but `shapefile_projected` is
the path string `.../projected/projected.shp`, never `None`; the returned
value `projected_shapefile` of `reproject_shapefile` is not consulted. -/
def shapefile_projected_is_none : Bool := false

/-- The feature set handed to `rasterize_shapefile` for a dataset that
was downloaded and reprojected: the contents of `projected.shp`, i.e.
whatever the reprojection loop wrote, supplied whenever the
(never-`None`) path test passes. -/
def rasterized_features {G : Type} (T : G → G) (fs : List (Option G)) :
    Option (List G) :=
  if shapefile_projected_is_none then none
  else some (reproject_features T fs).1

lemma reproject_features_all_some {G : Type} (T : G → G)
    {fs : List (Option G)} (h : ∀ f ∈ fs, f.isSome = true) :
    (reproject_features T fs).1.length = fs.length ∧
      (reproject_features T fs).2 = true := by
  induction fs with
  | nil => exact ⟨rfl, rfl⟩
  | cons f rest ih =>
    cases f with
    | some g =>
      obtain ⟨h1, h2⟩ := ih fun f hf => h f (List.mem_cons_of_mem _ hf)
      exact ⟨by simp [reproject_features, h1], by simp [reproject_features, h2]⟩
    | none => simpa using h none (List.mem_cons_self _ _)

/-- C8: when every feature's geometry is readable, reprojection succeeds
and the output has exactly as many features as the input; the empty
feature set yields the empty output with no error. -/
theorem c8_reproject_count {G : Type} (T : G → G) (fs : List (Option G))
    (h : ∀ f ∈ fs, f.isSome = true) :
    (reproject_features T fs).1.length = fs.length ∧
      (reproject_features T fs).2 = true ∧
      reproject_features T ([] : List (Option G)) = ([], true) := by
  obtain ⟨h1, h2⟩ := reproject_features_all_some T h
  exact ⟨h1, h2, rfl⟩

/-- Witness for C8 on two readable features. -/
theorem c8_reproject_count_witness :
    (reproject_features (id : ℕ → ℕ) [some 0, some 1]).1.length =
        ([some 0, some 1] : List (Option ℕ)).length ∧
      (reproject_features (id : ℕ → ℕ) [some 0, some 1]).2 = true ∧
      reproject_features (id : ℕ → ℕ) ([] : List (Option ℕ)) = ([], true) :=
  c8_reproject_count id [some 0, some 1] (by decide)

/-- C9: at a dataset holding one readable feature followed by one
unreadable feature, reprojection aborts and signals failure
(`projected_shapefile = None`), but `process_package_resource` tests the
path variable `shapefile_projected` — which is never `None` — instead of
the returned value, so the rasterizer is still handed the partially
written projected feature set `[g]`: partial output is published
downstream, contrary to the claim.  (Claim right, code wrong: the guard
plainly means to test the reprojection result.) -/
theorem c9_partial_output_published :
    (reproject_features (id : ℕ → ℕ) [some 0, none]).2 = false ∧
      rasterized_features (id : ℕ → ℕ) [some 0, none] = some [0] := by
  decide

end Analysis
